import Mathlib

/-!
Verification of the serialization-data validator of rlay-validate
(src/serialization_data.rs).

The validator checks that the data fields of an ontology entity hold a
multicodec-tagged byte string whose payload decodes under the tagged codec
(currently only CBOR is supported).  The entity model and the two decoding
collaborators (the multicodec envelope decoder and the structural CBOR
decoder) live in external crates; they are modelled here from the spec.
The validator itself (validate, validate_field, validate_cbor_value) is
translated from the source.
-/

/-- Modelled from the spec: the extensible registry of codec identifiers of
the multicodec convention (the external multicodec crate).  Only the codecs
exercised by the validator and its spec are listed: the structural-binary
CBOR format, JSON, and the protocol-buffer format. -/
inductive Codec where
  | Cbor
  | Json
  | Protobuf
deriving DecidableEq

/-- Modelled from the spec: the registry code of each codec
(CBOR 0x51, JSON 0x0200, Protobuf 0x50, per the public multicodec table). -/
def Codec.code : Codec → Nat
  | .Cbor => 0x51
  | .Json => 0x0200
  | .Protobuf => 0x50

/-- Modelled from the spec: lookup of a registry code in the supported
registry; codes outside the registry are unknown. -/
def codecFromCode (n : Nat) : Option Codec :=
  if n = 0x51 then some .Cbor
  else if n = 0x0200 then some .Json
  else if n = 0x50 then some .Protobuf
  else none

/-- Modelled from the spec: failure of envelope-level tag parsing
(the error type of the external multicodec crate): the leading varint is
truncated, or the decoded code is not in the registry. -/
inductive MulticodecError where
  | Truncated
  | UnknownCodec (code : Nat)
deriving DecidableEq

/-- Modelled from the spec: unsigned-varint decoding of the leading codec
tag: each byte contributes 7 low bits, little-endian; a byte below 128 ends
the varint; running out of bytes first is a truncation failure. -/
def readVarint : List Nat → Except MulticodecError (Nat × List Nat)
  | [] => .error .Truncated
  | b :: rest =>
    if b < 128 then .ok (b, rest)
    else
      match readVarint rest with
      | .error e => .error e
      | .ok (v, r) => .ok ((b % 128) + 128 * v, r)

/-- Modelled from the spec: a parsed multicodec envelope, split into the
identified codec and the remaining payload bytes. -/
structure MultiCodec where
  codec : Codec
  data : List Nat
deriving DecidableEq

/-- Modelled from the spec: MultiCodec::from of the external multicodec
crate: parse the leading varint code and look it up in the registry. -/
def MultiCodec.fromBytes (bs : List Nat) : Except MulticodecError MultiCodec :=
  match readVarint bs with
  | .error e => .error e
  | .ok (code, rest) =>
    match codecFromCode code with
    | some c => .ok ⟨c, rest⟩
    | none => .error (.UnknownCodec code)

/-- Modelled from the spec: structural failures of the CBOR item decoder
(the error type of the external cbor crate): truncated input, an invalid
header byte or additional-info value, a break byte outside an
indefinite-length item.  OutOfFuel is the budget marker of the fuel-bounded
embedding; it is proved unreachable for the budget the validator uses. -/
inductive CborError where
  | Truncated
  | InvalidTag (b : Nat)
  | UnexpectedBreak
  | OutOfFuel
deriving DecidableEq

/-- Big-endian value of a list of bytes (a multi-byte length argument). -/
def beVal (chunk : List Nat) : Nat := chunk.foldl (fun a b => 256 * a + b) 0

/-- Skip a run of payload bytes, failing when the input is too short. -/
def skipBytes (n : Nat) (bs : List Nat) : Except CborError (List Nat) :=
  if n ≤ bs.length then .ok (bs.drop n) else .error .Truncated

/-- Modelled from the spec: read the argument of a CBOR data-item header
with additional info ai: immediate values below 24, then 1-, 2-, 4- or
8-byte big-endian arguments for 24 to 27; 28 to 31 are invalid here. -/
def readArg (ai : Nat) (bs : List Nat) : Except CborError (Nat × List Nat) :=
  if ai < 24 then .ok (ai, bs)
  else if ai = 24 then
    match bs with
    | b0 :: r => .ok (b0, r)
    | [] => .error .Truncated
  else if ai = 25 then
    if 2 ≤ bs.length then .ok (beVal (bs.take 2), bs.drop 2) else .error .Truncated
  else if ai = 26 then
    if 4 ≤ bs.length then .ok (beVal (bs.take 4), bs.drop 4) else .error .Truncated
  else if ai = 27 then
    if 8 ≤ bs.length then .ok (beVal (bs.take 8), bs.drop 8) else .error .Truncated
  else .error (.InvalidTag ai)

mutual

/-- Modelled from the spec: parse one CBOR data item (major/minor header
byte, definite and indefinite lengths, nested containers, tags, simple and
float values), returning the bytes after the item.  The fuel argument
bounds the recursion of the embedding; a budget of twice the input length
is proved sufficient. -/
def parseItem : Nat → List Nat → Except CborError (List Nat)
  | _, [] => .error .Truncated
  | 0, _ :: _ => .error .OutOfFuel
  | f + 1, b :: rest =>
    if b / 32 = 0 ∨ b / 32 = 1 then
      match readArg (b % 32) rest with
      | .error e => .error e
      | .ok (_, r) => .ok r
    else if b / 32 = 2 ∨ b / 32 = 3 then
      if b % 32 = 31 then parseChunks f (b / 32) rest
      else
        match readArg (b % 32) rest with
        | .error e => .error e
        | .ok (n, r) => skipBytes n r
    else if b / 32 = 4 then
      if b % 32 = 31 then parseIndefItems f rest
      else
        match readArg (b % 32) rest with
        | .error e => .error e
        | .ok (n, r) => parseItems f n r
    else if b / 32 = 5 then
      if b % 32 = 31 then parseIndefPairs f rest
      else
        match readArg (b % 32) rest with
        | .error e => .error e
        | .ok (n, r) => parseItems f (2 * n) r
    else if b / 32 = 6 then
      match readArg (b % 32) rest with
      | .error e => .error e
      | .ok (_, r) => parseItem f r
    else if b / 32 = 7 then
      if b % 32 = 31 then .error .UnexpectedBreak
      else
        match readArg (b % 32) rest with
        | .error e => .error e
        | .ok (_, r) => .ok r
    else .error (.InvalidTag b)

/-- Modelled from the spec: parse a definite run of n CBOR items. -/
def parseItems : Nat → Nat → List Nat → Except CborError (List Nat)
  | _, 0, bs => .ok bs
  | 0, _ + 1, _ :: _ => .error .OutOfFuel
  | 0, _ + 1, [] => .error .Truncated
  | f + 1, n + 1, bs =>
    match parseItem f bs with
    | .error e => .error e
    | .ok r => parseItems f n r

/-- Modelled from the spec: parse the items of an indefinite-length array,
up to and including the break byte 0xff. -/
def parseIndefItems : Nat → List Nat → Except CborError (List Nat)
  | _, [] => .error .Truncated
  | 0, _ :: _ => .error .OutOfFuel
  | f + 1, b :: rest =>
    if b = 255 then .ok rest
    else
      match parseItem f (b :: rest) with
      | .error e => .error e
      | .ok r => parseIndefItems f r

/-- Modelled from the spec: parse the key-value pairs of an
indefinite-length map, up to and including the break byte 0xff; a break
between a key and its value is a truncation failure of the pair. -/
def parseIndefPairs : Nat → List Nat → Except CborError (List Nat)
  | _, [] => .error .Truncated
  | 0, _ :: _ => .error .OutOfFuel
  | f + 1, b :: rest =>
    if b = 255 then .ok rest
    else
      match parseItem f (b :: rest) with
      | .error e => .error e
      | .ok r1 =>
        match parseItem f r1 with
        | .error e => .error e
        | .ok r2 => parseIndefPairs f r2

/-- Modelled from the spec: parse the definite-length chunks of an
indefinite-length byte or text string, which must repeat the same major
type, up to and including the break byte 0xff. -/
def parseChunks : Nat → Nat → List Nat → Except CborError (List Nat)
  | _, _, [] => .error .Truncated
  | 0, _, _ :: _ => .error .OutOfFuel
  | f + 1, mj, b :: rest =>
    if b = 255 then .ok rest
    else if b / 32 = mj ∧ b % 32 ≤ 27 then
      match readArg (b % 32) rest with
      | .error e => .error e
      | .ok (n, r) =>
        match skipBytes n r with
        | .error e => .error e
        | .ok r2 => parseChunks f mj r2
    else .error (.InvalidTag b)

end

/-- Modelled from the spec: exhaustively parse a stream of zero or more
top-level CBOR items until the end of input (the items iterator of the
external cbor crate); the empty stream is valid. -/
def parseStream : Nat → List Nat → Except CborError Unit
  | _, [] => .ok ()
  | 0, _ :: _ => .error .OutOfFuel
  | f + 1, b :: rest =>
    match parseItem f (b :: rest) with
    | .error e => .error e
    | .ok r => parseStream f r

/-- Modelled from the spec: the annotation entity variant of the external
ontology model (the value field holding the encoded data is mandatory). -/
structure Annot where
  annots : List (List Nat)
  property : List Nat
  value : List Nat
deriving DecidableEq

/-- Modelled from the spec: the data-property assertion variant; the target
field holding the encoded data is optional. -/
structure DataPropertyAssertion where
  annots : List (List Nat)
  subject : List Nat
  property : List Nat
  target : Option (List Nat)
deriving DecidableEq

/-- Modelled from the spec: the negative data-property assertion variant;
the target field holding the encoded data is optional. -/
structure NegativeDataPropertyAssertion where
  annots : List (List Nat)
  subject : List Nat
  property : List Nat
  target : Option (List Nat)
deriving DecidableEq

/-- Modelled from the spec: the annotation assertion variant; the value
field holding the encoded data is optional. -/
structure AnnotAssertion where
  annots : List (List Nat)
  subject : List Nat
  property : List Nat
  value : Option (List Nat)
deriving DecidableEq

/-- Modelled from the spec: the negative annotation assertion variant; the
value field holding the encoded data is optional. -/
structure NegAnnotAssertion where
  annots : List (List Nat)
  subject : List Nat
  property : List Nat
  value : Option (List Nat)
deriving DecidableEq

/-- Modelled from the spec: a class expression variant; it carries no
serialized-data field. -/
structure ClassEntity where
  annots : List (List Nat)
deriving DecidableEq

/-- Modelled from the spec: an individual variant; it carries no
serialized-data field. -/
structure Individual where
  annots : List (List Nat)
deriving DecidableEq

/-- Modelled from the spec: the closed set of entity variants of the
external ontology model: the five variants carrying a serialized-data
field, and representatives of the variants carrying none (matched by the
catch-all arm of validate). -/
inductive Entity where
  | Annot (e : Annot)
  | DataPropertyAssertion (e : DataPropertyAssertion)
  | NegativeDataPropertyAssertion (e : NegativeDataPropertyAssertion)
  | AnnotAssertion (e : AnnotAssertion)
  | NegAnnotAssertion (e : NegAnnotAssertion)
  | ClassEntity (e : ClassEntity)
  | Individual (e : Individual)
deriving DecidableEq

/-- The error type of the validator (src/serialization_data.rs, enum
Error): the envelope could not be parsed, the codec is unsupported, or the
CBOR payload is undecodable. -/
inductive Error where
  | MulticodecParseError (cause : MulticodecError)
  | UnsupportedCodec (codec : Codec)
  | UndecodableCbor (cause : CborError)
deriving DecidableEq

/-- From src/serialization_data.rs, validate_cbor_value: collect the whole
item stream of the CBOR decoder, mapping a decoder failure to
UndecodableCbor.  The fuel budget 2 * length + 1 of the embedding is proved
sufficient, so the item stream of the source is modelled faithfully. -/
def validate_cbor_value (data : List Nat) : Except Error Unit :=
  match parseStream (2 * data.length + 1) data with
  | .ok () => .ok ()
  | .error e => .error (.UndecodableCbor e)

/-- From src/serialization_data.rs, validate_field: parse the multicodec
envelope (failures become MulticodecParseError), then dispatch on the
codec: CBOR payloads are structurally validated, every other codec is
rejected as UnsupportedCodec. -/
def validate_field (data : List Nat) : Except Error Unit :=
  match MultiCodec.fromBytes data with
  | .error e => .error (.MulticodecParseError e)
  | .ok parsed =>
    match parsed.codec with
    | .Cbor => validate_cbor_value parsed.data
    | other => .error (.UnsupportedCodec other)

/-- From src/serialization_data.rs, SerializationFormatDataFields::validate:
dispatch over the entity variants; the annotation value is always checked,
the optional fields are checked when present, and every other variant
passes unconditionally. -/
def validate (entity : Entity) : Except Error Unit :=
  match entity with
  | .Annot e => validate_field e.value
  | .DataPropertyAssertion e =>
    match e.target with
    | some v => validate_field v
    | none => .ok ()
  | .NegativeDataPropertyAssertion e =>
    match e.target with
    | some v => validate_field v
    | none => .ok ()
  | .AnnotAssertion e =>
    match e.value with
    | some v => validate_field v
    | none => .ok ()
  | .NegAnnotAssertion e =>
    match e.value with
    | some v => validate_field v
    | none => .ok ()
  | .ClassEntity _ => .ok ()
  | .Individual _ => .ok ()

/-- The borrowed-reference call of the source rendered as explicit state
passing: validate takes the entity by shared reference, so a call returns
the outcome together with the unchanged entity. -/
def validateCall (e : Entity) : Except Error Unit × Entity := (validate e, e)

/-- The serialized-data field the validator checks for each variant: the
field-extraction half of the match in validate. -/
def checkedField : Entity → Option (List Nat)
  | .Annot e => some e.value
  | .DataPropertyAssertion e => e.target
  | .NegativeDataPropertyAssertion e => e.target
  | .AnnotAssertion e => e.value
  | .NegAnnotAssertion e => e.value
  | .ClassEntity _ => none
  | .Individual _ => none

/-- validate is exactly: extract the checked field, validate it when
present, succeed otherwise. -/
theorem validate_eq_checkedField (e : Entity) :
    validate e = match checkedField e with
      | none => .ok ()
      | some v => validate_field v := by
  cases e with
  | Annot e => rfl
  | DataPropertyAssertion e => obtain ⟨a, s, p, t⟩ := e; cases t <;> rfl
  | NegativeDataPropertyAssertion e => obtain ⟨a, s, p, t⟩ := e; cases t <;> rfl
  | AnnotAssertion e => obtain ⟨a, s, p, t⟩ := e; cases t <;> rfl
  | NegAnnotAssertion e => obtain ⟨a, s, p, t⟩ := e; cases t <;> rfl
  | ClassEntity e => rfl
  | Individual e => rfl

/-- A successful skip returns a suffix of the input. -/
theorem skipBytes_length (n : Nat) (bs r : List Nat) (h : skipBytes n bs = .ok r) :
    r.length ≤ bs.length := by
  unfold skipBytes at h
  split at h
  · injection h with h; subst h; simp [List.length_drop]
  · injection h

/-- Reading a header argument returns a suffix of the input. -/
theorem readArg_length (ai n : Nat) (bs r : List Nat)
    (h : readArg ai bs = .ok (n, r)) : r.length ≤ bs.length := by
  unfold readArg at h
  split at h
  · injection h with h; injection h with h1 h2; subst h2; exact Nat.le_refl _
  · split at h
    · split at h
      · injection h with h; injection h with h1 h2; subst h2
        simp only [List.length_cons]; omega
      · injection h
    · split at h
      · split at h
        · injection h with h; injection h with h1 h2; subst h2
          simp only [List.length_drop]; omega
        · injection h
      · split at h
        · split at h
          · injection h with h; injection h with h1 h2; subst h2
            simp only [List.length_drop]; omega
          · injection h
        · split at h
          · split at h
            · injection h with h; injection h with h1 h2; subst h2
              simp only [List.length_drop]; omega
            · injection h
          · injection h

/-- Fuel-level consumption bound for the CBOR decoder: a successful parse
of one item, of an indefinite run, or of a chunk run consumes at least one
byte; a successful definite run of items never grows the input. -/
def ConsumeBound (fuel : Nat) : Prop :=
  (∀ bs r, parseItem fuel bs = .ok r → r.length < bs.length) ∧
  (∀ n bs r, parseItems fuel n bs = .ok r → r.length ≤ bs.length) ∧
  (∀ bs r, parseIndefItems fuel bs = .ok r → r.length < bs.length) ∧
  (∀ bs r, parseIndefPairs fuel bs = .ok r → r.length < bs.length) ∧
  (∀ mj bs r, parseChunks fuel mj bs = .ok r → r.length < bs.length)

theorem consumeBound (fuel : Nat) : ConsumeBound fuel := by
  induction fuel with
  | zero =>
    refine ⟨?_, ?_, ?_, ?_, ?_⟩
    · intro bs r h; cases bs <;> simp [parseItem] at h
    · intro n bs r h
      cases n with
      | zero => simp [parseItems] at h; subst h; exact Nat.le_refl _
      | succ n => cases bs <;> simp [parseItems] at h
    · intro bs r h; cases bs <;> simp [parseIndefItems] at h
    · intro bs r h; cases bs <;> simp [parseIndefPairs] at h
    · intro mj bs r h; cases bs <;> simp [parseChunks] at h
  | succ f ih =>
    obtain ⟨ihItem, ihItems, ihIndef, ihPairs, ihChunks⟩ := ih
    have hItem : ∀ bs r, parseItem (f + 1) bs = .ok r → r.length < bs.length := by
      intro bs r h
      cases bs with
      | nil => simp [parseItem] at h
      | cons b rest =>
        simp only [parseItem] at h
        split at h
        · rcases hr : readArg (b % 32) rest with e | ⟨n, r1⟩ <;> rw [hr] at h <;> simp at h
          subst h
          have h1 := readArg_length _ _ _ _ hr
          simp only [List.length_cons]; omega
        · split at h
          · split at h
            · have h1 := ihChunks _ _ _ h
              simp only [List.length_cons]; omega
            · rcases hr : readArg (b % 32) rest with e | ⟨n, r1⟩ <;> rw [hr] at h <;> simp at h
              have h1 := readArg_length _ _ _ _ hr
              have h2 := skipBytes_length _ _ _ h
              simp only [List.length_cons]; omega
          · split at h
            · split at h
              · have h1 := ihIndef _ _ h
                simp only [List.length_cons]; omega
              · rcases hr : readArg (b % 32) rest with e | ⟨n, r1⟩ <;> rw [hr] at h <;> simp at h
                have h1 := readArg_length _ _ _ _ hr
                have h2 := ihItems _ _ _ h
                simp only [List.length_cons]; omega
            · split at h
              · split at h
                · have h1 := ihPairs _ _ h
                  simp only [List.length_cons]; omega
                · rcases hr : readArg (b % 32) rest with e | ⟨n, r1⟩ <;> rw [hr] at h <;> simp at h
                  have h1 := readArg_length _ _ _ _ hr
                  have h2 := ihItems _ _ _ h
                  simp only [List.length_cons]; omega
              · split at h
                · rcases hr : readArg (b % 32) rest with e | ⟨n, r1⟩ <;> rw [hr] at h <;> simp at h
                  have h1 := readArg_length _ _ _ _ hr
                  have h2 := ihItem _ _ h
                  simp only [List.length_cons]; omega
                · split at h
                  · split at h
                    · simp at h
                    · rcases hr : readArg (b % 32) rest with e | ⟨n, r1⟩ <;> rw [hr] at h <;> simp at h
                      subst h
                      have h1 := readArg_length _ _ _ _ hr
                      simp only [List.length_cons]; omega
                  · simp at h
    have hItems : ∀ n bs r, parseItems (f + 1) n bs = .ok r → r.length ≤ bs.length := by
      intro n bs r h
      cases n with
      | zero => simp [parseItems] at h; subst h; exact Nat.le_refl _
      | succ n =>
        simp only [parseItems] at h
        rcases hi : parseItem f bs with e | r1 <;> rw [hi] at h <;> simp at h
        have h1 := ihItem _ _ hi
        have h2 := ihItems _ _ _ h
        omega
    have hIndef : ∀ bs r, parseIndefItems (f + 1) bs = .ok r → r.length < bs.length := by
      intro bs r h
      cases bs with
      | nil => simp [parseIndefItems] at h
      | cons b rest =>
        simp only [parseIndefItems] at h
        split at h
        · simp at h; subst h; simp only [List.length_cons]; omega
        · rcases hi : parseItem f (b :: rest) with e | r1 <;> rw [hi] at h <;> simp at h
          have h1 := ihItem _ _ hi
          have h2 := ihIndef _ _ h
          simp only [List.length_cons] at *; omega
    have hPairs : ∀ bs r, parseIndefPairs (f + 1) bs = .ok r → r.length < bs.length := by
      intro bs r h
      cases bs with
      | nil => simp [parseIndefPairs] at h
      | cons b rest =>
        simp only [parseIndefPairs] at h
        split at h
        · simp at h; subst h; simp only [List.length_cons]; omega
        · rcases h1 : parseItem f (b :: rest) with e | r1 <;> rw [h1] at h <;> simp at h
          rcases h2 : parseItem f r1 with e | r2 <;> rw [h2] at h <;> simp at h
          have a1 := ihItem _ _ h1
          have a2 := ihItem _ _ h2
          have a3 := ihPairs _ _ h
          simp only [List.length_cons] at *; omega
    have hChunks : ∀ mj bs r, parseChunks (f + 1) mj bs = .ok r → r.length < bs.length := by
      intro mj bs r h
      cases bs with
      | nil => simp [parseChunks] at h
      | cons b rest =>
        simp only [parseChunks] at h
        split at h
        · simp at h; subst h; simp only [List.length_cons]; omega
        · split at h
          · rcases hr : readArg (b % 32) rest with e | ⟨n, r1⟩ <;> rw [hr] at h <;> simp at h
            rcases hs : skipBytes n r1 with e | r2 <;> rw [hs] at h <;> simp at h
            have a1 := readArg_length _ _ _ _ hr
            have a2 := skipBytes_length _ _ _ hs
            have a3 := ihChunks _ _ _ h
            simp only [List.length_cons] at *; omega
          · simp at h
    exact ⟨hItem, hItems, hIndef, hPairs, hChunks⟩

/-- skipBytes never reports fuel exhaustion. -/
theorem skipBytes_ne_fuel (n : Nat) (bs : List Nat) :
    skipBytes n bs ≠ .error .OutOfFuel := by
  unfold skipBytes; split <;> simp

/-- readArg never reports fuel exhaustion. -/
theorem readArg_ne_fuel (ai : Nat) (bs : List Nat) :
    readArg ai bs ≠ .error .OutOfFuel := by
  unfold readArg
  repeat' split
  all_goals simp

/-- Fuel-level sufficiency bound for the CBOR decoder: a budget linear in
the input length never exhausts the fuel of the embedding, so every outcome
is an honest parse result of the modelled decoder. -/
def FuelBound (fuel : Nat) : Prop :=
  (∀ bs, 2 * bs.length ≤ fuel → parseItem fuel bs ≠ .error .OutOfFuel) ∧
  (∀ n bs, 2 * bs.length + 1 ≤ fuel → parseItems fuel n bs ≠ .error .OutOfFuel) ∧
  (∀ bs, 2 * bs.length + 1 ≤ fuel → parseIndefItems fuel bs ≠ .error .OutOfFuel) ∧
  (∀ bs, 2 * bs.length + 1 ≤ fuel → parseIndefPairs fuel bs ≠ .error .OutOfFuel) ∧
  (∀ mj bs, 2 * bs.length + 1 ≤ fuel → parseChunks fuel mj bs ≠ .error .OutOfFuel)

theorem fuelBound (fuel : Nat) : FuelBound fuel := by
  induction fuel with
  | zero =>
    refine ⟨?_, ?_, ?_, ?_, ?_⟩
    · intro bs hb h
      cases bs with
      | nil => simp [parseItem] at h
      | cons b rest => simp only [List.length_cons] at hb; omega
    · intro n bs hb h; omega
    · intro bs hb h; omega
    · intro bs hb h; omega
    · intro mj bs hb h; omega
  | succ f ih =>
    obtain ⟨ihItem, ihItems, ihIndef, ihPairs, ihChunks⟩ := ih
    have citem := (consumeBound f).1
    have hItem : ∀ bs, 2 * bs.length ≤ f + 1 → parseItem (f + 1) bs ≠ .error .OutOfFuel := by
      intro bs hb h
      cases bs with
      | nil => simp [parseItem] at h
      | cons b rest =>
        simp only [List.length_cons] at hb
        simp only [parseItem] at h
        split at h
        · rcases hr : readArg (b % 32) rest with e | ⟨n, r1⟩ <;> rw [hr] at h <;> simp at h
          subst h; exact readArg_ne_fuel _ _ hr
        · split at h
          · split at h
            · refine ihChunks _ _ ?_ h; omega
            · rcases hr : readArg (b % 32) rest with e | ⟨n, r1⟩ <;> rw [hr] at h <;> simp at h
              · subst h; exact readArg_ne_fuel _ _ hr
              · exact skipBytes_ne_fuel _ _ h
          · split at h
            · split at h
              · refine ihIndef _ ?_ h; omega
              · rcases hr : readArg (b % 32) rest with e | ⟨n, r1⟩ <;> rw [hr] at h <;> simp at h
                · subst h; exact readArg_ne_fuel _ _ hr
                · have h1 := readArg_length _ _ _ _ hr
                  refine ihItems _ _ ?_ h; omega
            · split at h
              · split at h
                · refine ihPairs _ ?_ h; omega
                · rcases hr : readArg (b % 32) rest with e | ⟨n, r1⟩ <;> rw [hr] at h <;> simp at h
                  · subst h; exact readArg_ne_fuel _ _ hr
                  · have h1 := readArg_length _ _ _ _ hr
                    refine ihItems _ _ ?_ h; omega
              · split at h
                · rcases hr : readArg (b % 32) rest with e | ⟨n, r1⟩ <;> rw [hr] at h <;> simp at h
                  · subst h; exact readArg_ne_fuel _ _ hr
                  · have h1 := readArg_length _ _ _ _ hr
                    refine ihItem _ ?_ h; omega
                · split at h
                  · split at h
                    · simp at h
                    · rcases hr : readArg (b % 32) rest with e | ⟨n, r1⟩ <;> rw [hr] at h <;> simp at h
                      subst h; exact readArg_ne_fuel _ _ hr
                  · simp at h
    have hItems : ∀ n bs, 2 * bs.length + 1 ≤ f + 1 → parseItems (f + 1) n bs ≠ .error .OutOfFuel := by
      intro n bs hb h
      cases n with
      | zero => simp [parseItems] at h
      | succ n =>
        simp only [parseItems] at h
        rcases hi : parseItem f bs with e | r1 <;> rw [hi] at h <;> simp at h
        · subst h; refine ihItem _ ?_ hi; omega
        · have h1 := citem _ _ hi
          refine ihItems _ _ ?_ h; omega
    have hIndef : ∀ bs, 2 * bs.length + 1 ≤ f + 1 → parseIndefItems (f + 1) bs ≠ .error .OutOfFuel := by
      intro bs hb h
      cases bs with
      | nil => simp [parseIndefItems] at h
      | cons b rest =>
        simp only [List.length_cons] at hb
        simp only [parseIndefItems] at h
        split at h
        · simp at h
        · rcases hi : parseItem f (b :: rest) with e | r1 <;> rw [hi] at h <;> simp at h
          · subst h; refine ihItem _ ?_ hi; simp only [List.length_cons]; omega
          · have h1 := citem _ _ hi
            simp only [List.length_cons] at h1
            refine ihIndef _ ?_ h; omega
    have hPairs : ∀ bs, 2 * bs.length + 1 ≤ f + 1 → parseIndefPairs (f + 1) bs ≠ .error .OutOfFuel := by
      intro bs hb h
      cases bs with
      | nil => simp [parseIndefPairs] at h
      | cons b rest =>
        simp only [List.length_cons] at hb
        simp only [parseIndefPairs] at h
        split at h
        · simp at h
        · rcases h1 : parseItem f (b :: rest) with e | r1 <;> rw [h1] at h <;> simp at h
          · subst h; refine ihItem _ ?_ h1; simp only [List.length_cons]; omega
          · have a1 := citem _ _ h1
            simp only [List.length_cons] at a1
            rcases h2 : parseItem f r1 with e | r2 <;> rw [h2] at h <;> simp at h
            · subst h; refine ihItem _ ?_ h2; omega
            · have a2 := citem _ _ h2
              refine ihPairs _ ?_ h; omega
    have hChunks : ∀ mj bs, 2 * bs.length + 1 ≤ f + 1 → parseChunks (f + 1) mj bs ≠ .error .OutOfFuel := by
      intro mj bs hb h
      cases bs with
      | nil => simp [parseChunks] at h
      | cons b rest =>
        simp only [List.length_cons] at hb
        simp only [parseChunks] at h
        split at h
        · simp at h
        · split at h
          · rcases hr : readArg (b % 32) rest with e | ⟨n, r1⟩ <;> rw [hr] at h <;> simp at h
            · subst h; exact readArg_ne_fuel _ _ hr
            · have a1 := readArg_length _ _ _ _ hr
              rcases hs : skipBytes n r1 with e | r2 <;> rw [hs] at h <;> simp at h
              · subst h; exact skipBytes_ne_fuel _ _ hs
              · have a2 := skipBytes_length _ _ _ hs
                refine ihChunks _ _ ?_ h; omega
          · simp at h
    exact ⟨hItem, hItems, hIndef, hPairs, hChunks⟩

/-- The top-level stream parse never exhausts a budget linear in the input
length: the decoder of the embedding terminates on every input with an
honest verdict. -/
theorem parseStream_ne_fuel (fuel : Nat) (bs : List Nat)
    (hb : 2 * bs.length + 1 ≤ fuel) : parseStream fuel bs ≠ .error .OutOfFuel := by
  induction fuel generalizing bs with
  | zero => intro h; omega
  | succ f ih =>
    intro h
    cases bs with
    | nil => simp [parseStream] at h
    | cons b rest =>
      simp only [List.length_cons] at hb
      simp only [parseStream] at h
      rcases hi : parseItem f (b :: rest) with e | r1 <;> rw [hi] at h <;> simp at h
      · subst h
        refine (fuelBound f).1 _ ?_ hi
        simp only [List.length_cons]; omega
      · have h1 := (consumeBound f).1 _ _ hi
        simp only [List.length_cons] at h1
        refine ih _ ?_ h
        omega

/-- Every outcome of validate_field on an input is one of: a malformed
envelope error carrying the envelope failure, the CBOR payload check, or an
unsupported-codec error for a non-CBOR codec. -/
theorem validate_field_cases (v : List Nat) :
    (∃ err, MultiCodec.fromBytes v = .error err ∧
      validate_field v = .error (.MulticodecParseError err)) ∨
    (∃ p, MultiCodec.fromBytes v = .ok ⟨.Cbor, p⟩ ∧
      validate_field v = validate_cbor_value p) ∨
    (∃ c p, MultiCodec.fromBytes v = .ok ⟨c, p⟩ ∧ c ≠ .Cbor ∧
      validate_field v = .error (.UnsupportedCodec c)) := by
  rcases he : MultiCodec.fromBytes v with err | ⟨c, p⟩
  · exact Or.inl ⟨err, rfl, by unfold validate_field; rw [he]⟩
  · cases c with
    | Cbor => exact Or.inr (Or.inl ⟨p, rfl, by unfold validate_field; rw [he]⟩)
    | Json =>
      exact Or.inr (Or.inr ⟨.Json, p, rfl, fun hc => Codec.noConfusion hc,
        by unfold validate_field; rw [he]⟩)
    | Protobuf =>
      exact Or.inr (Or.inr ⟨.Protobuf, p, rfl, fun hc => Codec.noConfusion hc,
        by unfold validate_field; rw [he]⟩)

/-- The CBOR payload check either succeeds or reports UndecodableCbor; it
never reports an envelope-level error. -/
theorem validate_cbor_value_shape (p : List Nat) :
    validate_cbor_value p = .ok () ∨
      ∃ ce, validate_cbor_value p = .error (.UndecodableCbor ce) := by
  rcases hs : parseStream (2 * p.length + 1) p with e2 | ⟨⟩
  · exact Or.inr ⟨e2, by unfold validate_cbor_value; rw [hs]⟩
  · exact Or.inl (by unfold validate_cbor_value; rw [hs])

/-- Claim C1: for every entity whose variant carries no serialized-data
field, and for every data-carrying entity whose optional field is absent,
validate returns success unconditionally. -/
theorem C1_no_data_field_ok (e : Entity) (h : checkedField e = none) :
    validate e = .ok () := by
  rw [validate_eq_checkedField, h]

theorem C1_no_data_field_ok_witness :
    checkedField (.DataPropertyAssertion ⟨[], [], [], none⟩) = none ∧
      validate (.DataPropertyAssertion ⟨[], [], [], none⟩) = .ok () :=
  ⟨rfl, C1_no_data_field_ok _ rfl⟩

/-- Claim C2: for every entity whose checked field is a valid multicodec
envelope wrapping the supported CBOR codec and whose payload parses as a
stream of zero or more top-level items, validate returns success; the
empty payload (zero items) is in particular valid. -/
theorem C2_supported_codec_ok (e : Entity) (v p : List Nat)
    (hf : checkedField e = some v)
    (henv : MultiCodec.fromBytes v = .ok ⟨.Cbor, p⟩)
    (hp : parseStream (2 * p.length + 1) p = .ok ()) :
    validate e = .ok () := by
  rw [validate_eq_checkedField, hf]
  show validate_field v = .ok ()
  unfold validate_field
  rw [henv]
  show validate_cbor_value p = .ok ()
  unfold validate_cbor_value
  rw [hp]

theorem C2_supported_codec_ok_witness :
    checkedField (.Annot ⟨[], [], [0x51]⟩) = some [0x51] ∧
      MultiCodec.fromBytes [0x51] = .ok ⟨.Cbor, []⟩ ∧
      parseStream 1 [] = .ok () ∧
      validate (.Annot ⟨[], [], [0x51]⟩) = .ok () :=
  ⟨rfl, rfl, rfl, C2_supported_codec_ok _ [0x51] [] rfl rfl rfl⟩

/-- Claim C3: for every entity whose checked field wraps a valid but
unsupported codec id, validate returns UnsupportedCodec carrying exactly
that codec, regardless of the payload content. -/
theorem C3_unsupported_codec (e : Entity) (v p : List Nat) (c : Codec)
    (hf : checkedField e = some v)
    (henv : MultiCodec.fromBytes v = .ok ⟨c, p⟩) (hc : c ≠ .Cbor) :
    validate e = .error (.UnsupportedCodec c) := by
  rw [validate_eq_checkedField, hf]
  show validate_field v = .error (.UnsupportedCodec c)
  unfold validate_field
  rw [henv]
  cases c with
  | Cbor => exact absurd rfl hc
  | Json => rfl
  | Protobuf => rfl

theorem C3_unsupported_codec_witness :
    checkedField (.Annot ⟨[], [], [0x50, 0xf5]⟩) = some [0x50, 0xf5] ∧
      MultiCodec.fromBytes [0x50, 0xf5] = .ok ⟨.Protobuf, [0xf5]⟩ ∧
      Codec.Protobuf ≠ Codec.Cbor ∧
      validate (.Annot ⟨[], [], [0x50, 0xf5]⟩) = .error (.UnsupportedCodec .Protobuf) :=
  ⟨rfl, rfl, fun hc => Codec.noConfusion hc,
    C3_unsupported_codec _ _ [0xf5] _ rfl rfl (fun hc => Codec.noConfusion hc)⟩

/-- Claim C4: for every entity whose checked field has a truncated or
invalid envelope-level tag, validate returns MulticodecParseError carrying
the underlying parse failure (and, the embedding being total, neither
panics nor hangs). -/
theorem C4_malformed_envelope (e : Entity) (v : List Nat) (err : MulticodecError)
    (hf : checkedField e = some v)
    (henv : MultiCodec.fromBytes v = .error err) :
    validate e = .error (.MulticodecParseError err) := by
  rw [validate_eq_checkedField, hf]
  show validate_field v = .error (.MulticodecParseError err)
  unfold validate_field
  rw [henv]

theorem C4_malformed_envelope_witness :
    checkedField (.AnnotAssertion ⟨[], [], [], some [128]⟩) = some [128] ∧
      MultiCodec.fromBytes [128] = .error .Truncated ∧
      validate (.AnnotAssertion ⟨[], [], [], some [128]⟩) =
        .error (.MulticodecParseError .Truncated) :=
  ⟨rfl, rfl, C4_malformed_envelope _ _ _ rfl rfl⟩

/-- Claim C5: for every entity whose checked field wraps the CBOR codec but
whose payload fails the structural parse at any point, validate returns
UndecodableCbor carrying the parser error; the whole item stream is
consumed and the first structural error is propagated, so partial success
is still a failure for the field. -/
theorem C5_malformed_payload (e : Entity) (v p : List Nat) (err : CborError)
    (hf : checkedField e = some v)
    (henv : MultiCodec.fromBytes v = .ok ⟨.Cbor, p⟩)
    (hp : parseStream (2 * p.length + 1) p = .error err) :
    validate e = .error (.UndecodableCbor err) := by
  rw [validate_eq_checkedField, hf]
  show validate_field v = .error (.UndecodableCbor err)
  unfold validate_field
  rw [henv]
  show validate_cbor_value p = .error (.UndecodableCbor err)
  unfold validate_cbor_value
  rw [hp]

theorem C5_malformed_payload_witness :
    MultiCodec.fromBytes [0x51, 0xf5, 0x1c] = .ok ⟨.Cbor, [0xf5, 0x1c]⟩ ∧
      parseStream 5 [0xf5, 0x1c] = .error (.InvalidTag 28) ∧
      validate (.Annot ⟨[], [], [0x51, 0xf5, 0x1c]⟩) =
        .error (.UndecodableCbor (.InvalidTag 28)) :=
  ⟨rfl, rfl, C5_malformed_payload _ _ [0xf5, 0x1c] _ rfl rfl rfl⟩

/-- Claim C6: the first failure while validating an entity's fields aborts
validation of the whole entity and that single error is returned to the
caller: the outcome of validate is exactly the outcome of its checked
field (success when there is none); there is no partial-pass result and no
aggregation of several errors. -/
theorem C6_first_failure_aborts (e : Entity) :
    validate e = Option.elim (checkedField e) (.ok ()) validate_field := by
  rw [validate_eq_checkedField]
  cases checkedField e <;> rfl

/-- Claim C7: validate is pure and idempotent: rendered as explicit state
passing, a call leaves the entity unchanged, and a second call on the
returned entity yields the same outcome as the first. -/
theorem C7_pure_idempotent (e : Entity) :
    (validateCall e).2 = e ∧
      (validateCall (validateCall e).2).1 = (validateCall e).1 :=
  ⟨rfl, rfl⟩

/-- Claim C8: validation terminates on every input: the fuel budget the
validator hands the structural parser (linear in the payload length) is
never exhausted, so validate never reports the fuel marker and every
verdict is reached in finitely many steps bounded by the input size. -/
theorem C8_validate_terminates (e : Entity) :
    validate e ≠ .error (.UndecodableCbor .OutOfFuel) := by
  rw [validate_eq_checkedField]
  cases checkedField e with
  | none => simp
  | some v =>
    show validate_field v ≠ .error (.UndecodableCbor .OutOfFuel)
    rcases validate_field_cases v with ⟨err, _, hv⟩ | ⟨p, _, hv⟩ | ⟨c, p, _, _, hv⟩
    · rw [hv]; simp
    · rw [hv]
      rcases validate_cbor_value_shape p with hsh | ⟨ce, hsh⟩
      · rw [hsh]; simp
      · rw [hsh]
        intro heq
        injection heq with heq
        injection heq with heq
        subst heq
        have hbad : validate_cbor_value p = .error (.UndecodableCbor .OutOfFuel) := hsh
        unfold validate_cbor_value at hbad
        rcases hs : parseStream (2 * p.length + 1) p with e2 | ⟨⟩ <;> rw [hs] at hbad
        · injection hbad with hbad
          injection hbad with hbad
          subst hbad
          exact parseStream_ne_fuel _ _ (Nat.le_refl _) hs
        · injection hbad
    · rw [hv]; simp

/-- Claim C9: an empty-but-present checked field is treated as an envelope
parse failure (a truncated varint), not as an absent field: validate
returns an error, not success. -/
theorem C9_empty_field_errors (e : Entity) (h : checkedField e = some []) :
    validate e = .error (.MulticodecParseError .Truncated) := by
  rw [validate_eq_checkedField, h]
  rfl

theorem C9_empty_field_errors_witness :
    checkedField (.NegAnnotAssertion ⟨[], [], [], some []⟩) = some [] ∧
      validate (.NegAnnotAssertion ⟨[], [], [], some []⟩) =
        .error (.MulticodecParseError .Truncated) :=
  ⟨rfl, C9_empty_field_errors _ rfl⟩

/-- Claim C10: the three error kinds identify mutually exclusive causes:
an UnsupportedCodec error never carries the CBOR codec; an UndecodableCbor
error implies the envelope parsed with the CBOR codec; a
MulticodecParseError implies the envelope itself failed to parse. -/
theorem C10_error_kinds_exclusive :
    (∀ e c, validate e = .error (.UnsupportedCodec c) → c ≠ .Cbor) ∧
    (∀ e err, validate e = .error (.UndecodableCbor err) →
      ∃ v p, checkedField e = some v ∧ MultiCodec.fromBytes v = .ok ⟨.Cbor, p⟩) ∧
    (∀ e err, validate e = .error (.MulticodecParseError err) →
      ∃ v, checkedField e = some v ∧ MultiCodec.fromBytes v = .error err) := by
  refine ⟨?_, ?_, ?_⟩
  · intro e c h
    rw [validate_eq_checkedField] at h
    cases hc : checkedField e <;> rw [hc] at h
    · simp at h
    · rename_i v
      have h2 : validate_field v = .error (.UnsupportedCodec c) := h
      rcases validate_field_cases v with ⟨err, he, hv⟩ | ⟨p, he, hv⟩ | ⟨c2, p, he, hne, hv⟩
      · rw [hv] at h2; simp at h2
      · rw [hv] at h2
        rcases validate_cbor_value_shape p with hsh | ⟨ce, hsh⟩ <;> rw [hsh] at h2 <;>
          simp at h2
      · rw [hv] at h2
        simp only [Except.error.injEq, Error.UnsupportedCodec.injEq] at h2
        subst h2
        exact hne
  · intro e err h
    rw [validate_eq_checkedField] at h
    cases hc : checkedField e <;> rw [hc] at h
    · simp at h
    · rename_i v
      have h2 : validate_field v = .error (.UndecodableCbor err) := h
      rcases validate_field_cases v with ⟨err2, he, hv⟩ | ⟨p, he, hv⟩ | ⟨c2, p, he, hne, hv⟩
      · rw [hv] at h2; simp at h2
      · exact ⟨v, p, rfl, he⟩
      · rw [hv] at h2; simp at h2
  · intro e err h
    rw [validate_eq_checkedField] at h
    cases hc : checkedField e <;> rw [hc] at h
    · simp at h
    · rename_i v
      have h2 : validate_field v = .error (.MulticodecParseError err) := h
      rcases validate_field_cases v with ⟨err2, he, hv⟩ | ⟨p, he, hv⟩ | ⟨c2, p, he, hne, hv⟩
      · rw [hv] at h2
        simp only [Except.error.injEq, Error.MulticodecParseError.injEq] at h2
        subst h2
        exact ⟨v, rfl, he⟩
      · rw [hv] at h2
        rcases validate_cbor_value_shape p with hsh | ⟨ce, hsh⟩ <;> rw [hsh] at h2 <;>
          simp at h2
      · rw [hv] at h2; simp at h2

theorem C10_error_kinds_exclusive_witness :
    validate (.Annot ⟨[], [], [0x50, 0x01]⟩) = .error (.UnsupportedCodec .Protobuf) ∧
      Codec.Protobuf ≠ Codec.Cbor :=
  ⟨rfl, C10_error_kinds_exclusive.1 (.Annot ⟨[], [], [0x50, 0x01]⟩) .Protobuf rfl⟩
